import Mathlib

/-!
# Verification of the DART SO(3) representation subsystem

Shallow embedding, over the real numbers, of the SO(3)
conversion-and-group-operation subsystem of the repository:

* `dart/math/detail/SO3Operations.hpp` — the exponential and logarithm maps,
  the canonical conversion router (`rep_convert_to_canonical_impl`,
  `rep_convert_from_canonical_impl`, `rep_convert_impl`), the direct
  conversion shortcuts, the group multiplication dispatch
  (`group_multiplication_impl`, `rep_canonical_multiplication_impl`) and the
  approximate-equality dispatch (`rep_is_approx_impl`, `group_is_approx_impl`);
* `dart/math/SO3AxisAngle.hpp` — the axis-angle value type
  (constructors, `operator==`, `getInverse`, `setIdentity`, `isIdentity`);
* the rotation-vector value type `SO3RotationVector`
  (constructors, `getInverse`, `isIdentity`).

The scalar type `S` of the C++ templates is instantiated with `ℝ`; Eigen's
fixed-size vectors and matrices become `Fin 3 → ℝ` and
`Matrix (Fin 3) (Fin 3) ℝ`.  The tolerance `constants<S>::eps()`
(`dart/math/Constants.hpp`, not part of the sources) is kept as an explicit
parameter `eps` of the embedding.  Eigen-internal algorithms that the headers
call but that are not part of the repository (the `AngleAxis`-from-matrix
decomposition, the rotation constructors between Eigen types) are modelled
from the specification and marked as such in their doc comments.
-/

namespace DartMath

noncomputable section

open Matrix

set_option maxHeartbeats 1000000

/-- Eigen `Matrix<S, 3, 1>` with `S = ℝ`: a 3-vector. -/
abbrev Vec3 := Fin 3 → ℝ

/-- Eigen `Matrix<S, 3, 3>` with `S = ℝ`: a 3×3 matrix. -/
abbrev Mat3 := Matrix (Fin 3) (Fin 3) ℝ

/-- Eigen `AngleAxis<S>` with `S = ℝ`: an angle together with an axis. -/
structure AngleAxis where
  angle : ℝ
  axis : Vec3

/-- Eigen `Quaternion<S>` with `S = ℝ`, coefficients `(w, x, y, z)`. -/
structure Quat where
  w : ℝ
  x : ℝ
  y : ℝ
  z : ℝ

/-- Eigen `.norm()` of a 3-vector: the square root of the sum of squared
components, exactly as `exp` computes `theta` from `s2[0] + s2[1] + s2[2]`
(`SO3Operations.hpp:160`). -/
def vnorm (v : Vec3) : ℝ :=
  Real.sqrt (v 0 * v 0 + v 1 * v 1 + v 2 * v 2)

/-- The skew-symmetric (cross-product) matrix of a 3-vector, used to state the
Rodrigues assembly of `exp`. -/
def skewMat (v : Vec3) : Mat3 :=
  !![0, -v 2, v 1; v 2, 0, -v 0; -v 1, v 0, 0]

/-- The outer product `v vᵀ` of a 3-vector with itself, used to state the
Rodrigues assembly of `exp`. -/
def outerSelf (v : Vec3) : Mat3 :=
  Matrix.of fun i j => v i * v j

/-- The coefficient `alpha` of `exp` (`SO3Operations.hpp:163-173`):
`sin(θ)/θ` when `θ` exceeds the tolerance, else the Taylor form `1 − θ²/6`. -/
def expAlpha (eps θ : ℝ) : ℝ :=
  if θ > eps then Real.sin θ / θ else 1 - θ * θ / 6

/-- The coefficient `beta` of `exp` (`SO3Operations.hpp:163-173`):
`(1 − cos θ)/θ/θ` when `θ` exceeds the tolerance, else `1/2 − θ²/24`. -/
def expBeta (eps θ : ℝ) : ℝ :=
  if θ > eps then (1 - Real.cos θ) / θ / θ else 1 / 2 - θ * θ / 24

/-- The exponential map `detail::so3_operations::exp`
(`SO3Operations.hpp:151-188`).  `s2[i] = w[i]*w[i]`, `s3 = {w0w1, w1w2, w2w0}`,
`θ = √(s2[0]+s2[1]+s2[2])`, and the nine entries are assembled from
`beta`, `alpha` and `cos θ` exactly as in the source (the matrix below is
written row-major; the source assigns by `(row, col)`). -/
def so3Exp (eps : ℝ) (w : Vec3) : Mat3 :=
  !![expBeta eps (vnorm w) * (w 0 * w 0) + Real.cos (vnorm w),
     expBeta eps (vnorm w) * (w 0 * w 1) - expAlpha eps (vnorm w) * w 2,
     expBeta eps (vnorm w) * (w 2 * w 0) + expAlpha eps (vnorm w) * w 1;
     expBeta eps (vnorm w) * (w 0 * w 1) + expAlpha eps (vnorm w) * w 2,
     expBeta eps (vnorm w) * (w 1 * w 1) + Real.cos (vnorm w),
     expBeta eps (vnorm w) * (w 1 * w 2) - expAlpha eps (vnorm w) * w 0;
     expBeta eps (vnorm w) * (w 2 * w 0) - expAlpha eps (vnorm w) * w 1,
     expBeta eps (vnorm w) * (w 1 * w 2) + expAlpha eps (vnorm w) * w 0,
     expBeta eps (vnorm w) * (w 2 * w 2) + Real.cos (vnorm w)]

/-- C1 first part: the source assembly of `exp` is exactly the Rodrigues matrix
`cos θ · I + α · [w]ₓ + β · w wᵀ` with the branch coefficients of the spec. -/
theorem so3Exp_eq_rodrigues (eps : ℝ) (w : Vec3) :
    so3Exp eps w =
      Real.cos (vnorm w) • (1 : Mat3)
        + (if vnorm w > eps then Real.sin (vnorm w) / vnorm w
           else 1 - (vnorm w) ^ 2 / 6) • skewMat w
        + (if vnorm w > eps then (1 - Real.cos (vnorm w)) / (vnorm w) ^ 2
           else 1 / 2 - (vnorm w) ^ 2 / 24) • outerSelf w := by
  rw [Matrix.one_fin_three]
  by_cases h : vnorm w > eps <;>
    ext i j <;>
    fin_cases i <;> fin_cases j <;>
    simp [so3Exp, expAlpha, expBeta, h, skewMat, outerSelf,
      Matrix.add_apply, Matrix.smul_apply, smul_eq_mul] <;>
    ring

theorem vnorm_nonneg (v : Vec3) : 0 ≤ vnorm v := Real.sqrt_nonneg _

theorem sq_vnorm (v : Vec3) : vnorm v ^ 2 = v 0 * v 0 + v 1 * v 1 + v 2 * v 2 := by
  apply Real.sq_sqrt
  nlinarith [mul_self_nonneg (v 0), mul_self_nonneg (v 1), mul_self_nonneg (v 2)]

theorem vnorm_zero : vnorm (0 : Vec3) = 0 := by
  simp [vnorm]

theorem vnorm_eq_zero_iff (v : Vec3) : vnorm v = 0 ↔ v = 0 := by
  constructor
  · intro h
    have hs := sq_vnorm v
    rw [h] at hs
    have h2 : v 0 * v 0 + v 1 * v 1 + v 2 * v 2 = 0 := by simpa using hs.symm
    have h0 : v 0 = 0 := by
      nlinarith [mul_self_nonneg (v 0), mul_self_nonneg (v 1), mul_self_nonneg (v 2)]
    have h1 : v 1 = 0 := by
      nlinarith [mul_self_nonneg (v 0), mul_self_nonneg (v 1), mul_self_nonneg (v 2)]
    have hv2 : v 2 = 0 := by
      nlinarith [mul_self_nonneg (v 0), mul_self_nonneg (v 1), mul_self_nonneg (v 2)]
    funext i
    fin_cases i <;> simp [h0, h1, hv2]
  · rintro rfl
    exact vnorm_zero

theorem vnorm_neg (v : Vec3) : vnorm (-v) = vnorm v := by
  simp only [vnorm, Pi.neg_apply]
  ring_nf

theorem vnorm_smul (c : ℝ) (v : Vec3) : vnorm (c • v) = |c| * vnorm v := by
  simp only [vnorm, Pi.smul_apply, smul_eq_mul]
  rw [show c * v 0 * (c * v 0) + c * v 1 * (c * v 1) + c * v 2 * (c * v 2)
      = c ^ 2 * (v 0 * v 0 + v 1 * v 1 + v 2 * v 2) by ring,
    Real.sqrt_mul (sq_nonneg c), Real.sqrt_sq_eq_abs]

theorem skew_transpose (v : Vec3) : (skewMat v)ᵀ = -skewMat v := by
  ext i j
  fin_cases i <;> fin_cases j <;> simp [skewMat]

theorem outer_transpose (v : Vec3) : (outerSelf v)ᵀ = outerSelf v := by
  ext i j
  fin_cases i <;> fin_cases j <;> simp [outerSelf] <;> ring

theorem skew_neg (v : Vec3) : skewMat (-v) = -skewMat v := by
  ext i j
  fin_cases i <;> fin_cases j <;> simp [skewMat]

theorem outer_neg (v : Vec3) : outerSelf (-v) = outerSelf v := by
  ext i j
  fin_cases i <;> fin_cases j <;> simp [outerSelf]

theorem skew_smul (c : ℝ) (v : Vec3) : skewMat (c • v) = c • skewMat v := by
  ext i j
  fin_cases i <;> fin_cases j <;> simp [skewMat, Matrix.smul_apply]

theorem outer_smul (c : ℝ) (v : Vec3) : outerSelf (c • v) = (c * c) • outerSelf v := by
  ext i j
  fin_cases i <;> fin_cases j <;> simp [outerSelf, Matrix.smul_apply] <;> ring

theorem skew_mul_outer (v : Vec3) : skewMat v * outerSelf v = 0 := by
  ext i j
  fin_cases i <;> fin_cases j <;>
    simp [skewMat, outerSelf, Matrix.mul_apply, Fin.sum_univ_three] <;> ring

theorem outer_mul_skew (v : Vec3) : outerSelf v * skewMat v = 0 := by
  ext i j
  fin_cases i <;> fin_cases j <;>
    simp [skewMat, outerSelf, Matrix.mul_apply, Fin.sum_univ_three] <;> ring

theorem outer_mul_outer (v : Vec3) :
    outerSelf v * outerSelf v = (v 0 * v 0 + v 1 * v 1 + v 2 * v 2) • outerSelf v := by
  ext i j
  fin_cases i <;> fin_cases j <;>
    simp [outerSelf, Matrix.mul_apply, Fin.sum_univ_three, Matrix.smul_apply] <;> ring

theorem skew_mul_skew (v : Vec3) :
    skewMat v * skewMat v
      = outerSelf v - (v 0 * v 0 + v 1 * v 1 + v 2 * v 2) • (1 : Mat3) := by
  rw [Matrix.one_fin_three]
  ext i j
  fin_cases i <;> fin_cases j <;>
    simp [skewMat, outerSelf, Matrix.mul_apply, Fin.sum_univ_three, Matrix.sub_apply,
      Matrix.smul_apply, Matrix.vecHead, Matrix.vecTail] <;> ring

theorem so3Exp_zero (eps : ℝ) : so3Exp eps (0 : Vec3) = 1 := by
  rw [Matrix.one_fin_three]
  ext i j
  fin_cases i <;> fin_cases j <;>
    simp [so3Exp, vnorm]

/-- C1: `exp` (a total function on 3-vectors) returns the Rodrigues rotation
matrix assembled from `α`, `β` and `cos θ`, where `θ = ‖ω‖` and
`α = sin(θ)/θ`, `β = (1 − cos θ)/θ²` when `θ > ε`, and the Taylor forms
`α = 1 − θ²/6`, `β = 1/2 − θ²/24` otherwise; in particular `exp(0)` is the
identity matrix. -/
theorem claim_C1 (eps : ℝ) (w : Vec3) :
    (so3Exp eps w =
      Real.cos (vnorm w) • (1 : Mat3)
        + (if vnorm w > eps then Real.sin (vnorm w) / vnorm w
           else 1 - (vnorm w) ^ 2 / 6) • skewMat w
        + (if vnorm w > eps then (1 - Real.cos (vnorm w)) / (vnorm w) ^ 2
           else 1 / 2 - (vnorm w) ^ 2 / 24) • outerSelf w)
      ∧ so3Exp eps (0 : Vec3) = 1 :=
  ⟨so3Exp_eq_rodrigues eps w, so3Exp_zero eps⟩

/-- Abstract Rodrigues orthogonality: a matrix `c·I + a·K + b·P` built from a
skew part `K` and an outer part `P` with the usual algebraic relations is
orthogonal whenever the scalar coefficients satisfy the two Rodrigues
constraints. -/
theorem rodrigues_mul_transpose (K P : Mat3) (a b c Q : ℝ)
    (hKt : Kᵀ = -K) (hPt : Pᵀ = P)
    (hKP : K * P = 0) (hPK : P * K = 0)
    (hKK : K * K = P - Q • (1 : Mat3)) (hPP : P * P = Q • P)
    (h1 : c * c + a * a * Q = 1) (h2 : Q * (b * b) + 2 * (c * b) - a * a = 0) :
    (c • (1 : Mat3) + a • K + b • P) * (c • (1 : Mat3) + a • K + b • P)ᵀ = 1 := by
  have ht : (c • (1 : Mat3) + a • K + b • P)ᵀ = c • (1 : Mat3) - a • K + b • P := by
    simp only [Matrix.transpose_add, Matrix.transpose_smul, Matrix.transpose_one, hKt, hPt,
      smul_neg]
    abel
  rw [ht]
  have e1 : (c • (1 : Mat3) + a • K + b • P) * (c • (1 : Mat3) - a • K + b • P)
      = (c * c) • (1 : Mat3) - (c * a) • K + (c * b) • P
        + (a * c) • K - (a * a) • (K * K) + (a * b) • (K * P)
        + (b * c) • P - (b * a) • (P * K) + (b * b) • (P * P) := by
    simp only [mul_add, add_mul, mul_sub, sub_mul, Matrix.smul_mul, Matrix.mul_smul,
      smul_smul, Matrix.mul_one, Matrix.one_mul]
    module
  rw [e1, hKK, hPP, hKP, hPK]
  have e2 : (c * c) • (1 : Mat3) - (c * a) • K + (c * b) • P
        + (a * c) • K - (a * a) • (P - Q • (1 : Mat3)) + (a * b) • (0 : Mat3)
        + (b * c) • P - (b * a) • (0 : Mat3) + (b * b) • (Q • P)
      = (c * c + a * a * Q) • (1 : Mat3)
        + (Q * (b * b) + 2 * (c * b) - a * a) • P := by
    module
  rw [e2, h1, h2]
  simp

/-- The map `exp` in its exact branch (`θ > ε`). -/
theorem so3Exp_big (eps : ℝ) (w : Vec3) (h : eps < vnorm w) :
    so3Exp eps w =
      Real.cos (vnorm w) • (1 : Mat3)
        + (Real.sin (vnorm w) / vnorm w) • skewMat w
        + ((1 - Real.cos (vnorm w)) / (vnorm w) ^ 2) • outerSelf w := by
  rw [so3Exp_eq_rodrigues, if_pos h, if_pos h]

/-- The matrix `exp(−ω)` is the transpose of `exp(ω)`. -/
theorem so3Exp_neg (eps : ℝ) (w : Vec3) : so3Exp eps (-w) = (so3Exp eps w)ᵀ := by
  ext i j
  fin_cases i <;> fin_cases j <;>
    simp [so3Exp, vnorm_neg, Pi.neg_apply, Matrix.transpose_apply] <;> ring

/-- The `exp` of a vector outside the Taylor branch (or of the zero vector) is
an orthogonal matrix: `exp(ω) · exp(ω)ᵀ = I`. -/
theorem so3Exp_mul_transpose (eps : ℝ) (w : Vec3) (heps : 0 ≤ eps)
    (h : eps < vnorm w ∨ w = 0) :
    so3Exp eps w * (so3Exp eps w)ᵀ = 1 := by
  rcases h with h | rfl
  · have hθpos : 0 < vnorm w := lt_of_le_of_lt heps h
    have hθ : vnorm w ≠ 0 := ne_of_gt hθpos
    rw [so3Exp_big eps w h]
    apply rodrigues_mul_transpose (Q := (vnorm w) ^ 2)
    · exact skew_transpose w
    · exact outer_transpose w
    · exact skew_mul_outer w
    · exact outer_mul_skew w
    · rw [skew_mul_skew, ← sq_vnorm]
    · rw [outer_mul_outer, ← sq_vnorm]
    · field_simp
      linear_combination (vnorm w) ^ 2 * Real.sin_sq_add_cos_sq (vnorm w)
    · field_simp
      linear_combination - (vnorm w) ^ 6 * Real.sin_sq_add_cos_sq (vnorm w)
  · rw [so3Exp_zero]
    simp

/-- Modelled from the spec (§4.3): the rotation angle of the angle/axis
decomposition that `Eigen::AngleAxis<S> aa(R)` performs (the Eigen
constructor itself is not part of the repository sources): the angle is
`arccos((tr R − 1)/2) ∈ [0, π]`. -/
def aaAngleOfMat (R : Mat3) : ℝ := Real.arccos ((R.trace - 1) / 2)

/-- The vector of the skew-symmetric part of a matrix (twice the sine-scaled
rotation axis of a rotation matrix). -/
def skewVecOfMat (R : Mat3) : Vec3 := ![R 2 1 - R 1 2, R 0 2 - R 2 0, R 1 0 - R 0 1]

/-- Modelled from the spec (§4.3): the rotation axis of the angle/axis
decomposition of a rotation matrix, extracted from the skew-symmetric part
(valid below the `θ = π` ambiguity threshold the spec's glossary notes). -/
def aaAxisOfMat (R : Mat3) : Vec3 :=
  (2 * Real.sin (aaAngleOfMat R))⁻¹ • skewVecOfMat R

/-- Modelled from the spec (§4.3): the angle/axis decomposition of a matrix,
as performed by the Eigen `AngleAxis`-from-matrix constructor that
`detail::so3_operations::log` calls. -/
def aaOfMat (R : Mat3) : AngleAxis := ⟨aaAngleOfMat R, aaAxisOfMat R⟩

/-- The logarithm map `detail::so3_operations::log`
(`SO3Operations.hpp:195-201`): `aa.angle() * aa.axis()` for the angle/axis
decomposition `aa` of the matrix. -/
def so3Log (R : Mat3) : Vec3 := (aaOfMat R).angle • (aaOfMat R).axis

theorem so3Log_one : so3Log (1 : Mat3) = 0 := by
  simp [so3Log, aaOfMat, aaAngleOfMat, Matrix.trace_one]
  norm_num

theorem trace_so3Exp_big (eps : ℝ) (w : Vec3) (h : eps < vnorm w) (h0 : 0 < vnorm w) :
    (so3Exp eps w).trace = 1 + 2 * Real.cos (vnorm w) := by
  have hθ : vnorm w ≠ 0 := ne_of_gt h0
  have hsum : w 0 * w 0 + w 1 * w 1 + w 2 * w 2 = vnorm w ^ 2 := (sq_vnorm w).symm
  rw [Matrix.trace_fin_three]
  simp only [so3Exp, expBeta, if_pos h, Matrix.cons_val', Matrix.cons_val_zero,
    Matrix.cons_val_one, Matrix.head_cons, Matrix.head_fin_const, Matrix.empty_val',
    Matrix.cons_val_fin_one]
  field_simp
  linear_combination (1 - Real.cos (vnorm w)) * hsum

/-- exp/log inverse, first direction: `log(exp ω) = ω` for `ε < ‖ω‖ < π`. -/
theorem so3Log_so3Exp (eps : ℝ) (w : Vec3) (heps : 0 ≤ eps)
    (h : eps < vnorm w) (hpi : vnorm w < Real.pi) :
    so3Log (so3Exp eps w) = w := by
  have h0 : 0 < vnorm w := lt_of_le_of_lt heps h
  have hθ : vnorm w ≠ 0 := ne_of_gt h0
  have hsin : 0 < Real.sin (vnorm w) := Real.sin_pos_of_pos_of_lt_pi h0 hpi
  have hangle : aaAngleOfMat (so3Exp eps w) = vnorm w := by
    rw [aaAngleOfMat, trace_so3Exp_big eps w h h0]
    rw [show (1 + 2 * Real.cos (vnorm w) - 1) / 2 = Real.cos (vnorm w) by ring]
    exact Real.arccos_cos (le_of_lt h0) (le_of_lt hpi)
  have hskew : skewVecOfMat (so3Exp eps w) = (2 * (Real.sin (vnorm w) / vnorm w)) • w := by
    funext i
    fin_cases i <;>
      simp [skewVecOfMat, so3Exp, expAlpha, if_pos h, Pi.smul_apply, smul_eq_mul] <;>
      ring
  rw [so3Log, aaOfMat]
  simp only [aaAxisOfMat, hangle, hskew, smul_smul]
  rw [show vnorm w * ((2 * Real.sin (vnorm w))⁻¹ * (2 * (Real.sin (vnorm w) / vnorm w))) = 1 by
    field_simp]
  exact one_smul _ _

/-- The second invariant (sum of principal 2×2 minors) of a 3×3 matrix. -/
def inv2 (R : Mat3) : ℝ :=
  (R 1 1 * R 2 2 - R 1 2 * R 2 1) + (R 0 0 * R 2 2 - R 0 2 * R 2 0)
    + (R 0 0 * R 1 1 - R 0 1 * R 1 0)

/-- Universal Cayley–Hamilton step for 3×3 matrices:
`R (R² − (tr R) R + inv2(R) I) = det(R) I`. -/
theorem cayley_aux (R : Mat3) :
    R * (R * R - R.trace • R + inv2 R • (1 : Mat3)) = R.det • (1 : Mat3) := by
  ext i j
  fin_cases i <;> fin_cases j <;>
    simp [Matrix.mul_apply, Matrix.sub_apply, Matrix.add_apply, Matrix.smul_apply,
      Matrix.one_apply, Fin.sum_univ_three, inv2, Matrix.trace_fin_three,
      Matrix.det_fin_three, smul_eq_mul] <;>
    ring

/-- Universal Newton identity for 3×3 matrices: `tr(R²) = (tr R)² − 2 inv2(R)`. -/
theorem trace_sq_eq (R : Mat3) : (R * R).trace = R.trace ^ 2 - 2 * inv2 R := by
  simp [Matrix.trace_fin_three, Matrix.mul_apply, Fin.sum_univ_three, inv2]
  ring

/-- The skew matrix of the skew vector of `R` is the skew-symmetric part
`R − Rᵀ`. -/
theorem skewMat_skewVec (R : Mat3) : skewMat (skewVecOfMat R) = R - Rᵀ := by
  ext i j
  fin_cases i <;> fin_cases j <;>
    simp [skewMat, skewVecOfMat, Matrix.sub_apply, Matrix.transpose_apply]

theorem trace_outer (v : Vec3) :
    (outerSelf v).trace = v 0 * v 0 + v 1 * v 1 + v 2 * v 2 := by
  simp [Matrix.trace_fin_three, outerSelf]

/-- For a rotation matrix (`RᵀR = I`, `det R = 1`), the second invariant equals
the trace and the transpose is the Cayley–Hamilton polynomial `R² − tR + tI`. -/
theorem rot_aux (R : Mat3) (ho : Rᵀ * R = 1) (hd : R.det = 1) :
    inv2 R = R.trace ∧ Rᵀ = R * R - R.trace • R + R.trace • (1 : Mat3) := by
  have hX : R * R - R.trace • R + inv2 R • (1 : Mat3) = Rᵀ := by
    calc R * R - R.trace • R + inv2 R • (1 : Mat3)
        = (Rᵀ * R) * (R * R - R.trace • R + inv2 R • (1 : Mat3)) := by
          rw [ho, Matrix.one_mul]
      _ = Rᵀ * (R * (R * R - R.trace • R + inv2 R • (1 : Mat3))) := by
          rw [Matrix.mul_assoc]
      _ = Rᵀ * (R.det • (1 : Mat3)) := by rw [cayley_aux]
      _ = Rᵀ := by rw [hd, one_smul, Matrix.mul_one]
  have htr := congrArg Matrix.trace hX
  rw [Matrix.trace_add, Matrix.trace_sub, Matrix.trace_smul, Matrix.trace_smul,
    Matrix.trace_one, Matrix.trace_transpose, trace_sq_eq] at htr
  have hinv2 : inv2 R = R.trace := by
    simp only [smul_eq_mul, Fintype.card_fin, Nat.cast_ofNat] at htr
    linear_combination htr
  exact ⟨hinv2, by rw [← hX, hinv2]⟩

/-- exp/log inverse, second direction: `exp(log R) = R` for every rotation
matrix whose decomposition angle lies strictly between `ε` and `π`. -/
theorem so3Exp_so3Log (eps : ℝ) (R : Mat3) (heps : 0 ≤ eps)
    (ho : Rᵀ * R = 1) (hd : R.det = 1) (htm1 : R.trace ≠ -1)
    (hb : eps < aaAngleOfMat R) :
    so3Exp eps (so3Log R) = R := by
  obtain ⟨hinv2, hT⟩ := rot_aux R ho hd
  have ho' : R * Rᵀ = 1 := Matrix.mul_eq_one_comm.mp ho
  set t := R.trace with htdef
  have hmul1 : R * (R * R - t • R + t • (1 : Mat3)) = 1 := by
    have h0 := cayley_aux R
    rw [hinv2, hd, one_smul] at h0
    exact h0
  have hR3 : R * (R * R) = t • (R * R) - t • R + 1 := by
    have h2 : R * (R * R) - t • (R * R) + t • R = 1 := by
      calc R * (R * R) - t • (R * R) + t • R
          = R * (R * R - t • R + t • (1 : Mat3)) := by
            rw [mul_add, mul_sub, Matrix.mul_smul, Matrix.mul_smul, Matrix.mul_one]
        _ = 1 := hmul1
    rw [← h2]
    abel
  have hR4 : R * (R * (R * R)) = (t^2 - t) • (R * R) + (1 - t^2) • R + t • (1 : Mat3) := by
    rw [hR3, mul_add, mul_sub, Matrix.mul_smul, Matrix.mul_smul, Matrix.mul_one, hR3]
    module
  have hTT : Rᵀ * Rᵀ = t • (R * R) + (1 - t^2) • R + (t^2 - t) • (1 : Mat3) := by
    rw [hT]
    simp only [sub_mul, add_mul, mul_sub, mul_add, Matrix.smul_mul, Matrix.mul_smul,
      smul_smul, Matrix.mul_one, Matrix.one_mul]
    rw [show R * R * (R * R) = R * (R * (R * R)) from mul_assoc R R (R * R),
      show R * R * R = R * (R * R) from mul_assoc R R R]
    rw [hR4, hR3]
    module
  have hK2 : skewMat (skewVecOfMat R) * skewMat (skewVecOfMat R)
      = (1 + t) • (R * R) + (1 - t^2) • R + (t^2 - t - 2) • (1 : Mat3) := by
    rw [skewMat_skewVec, sub_mul, mul_sub, mul_sub, ho', ho, hTT]
    module
  set w := skewVecOfMat R with hwdef
  have hKtr : (skewMat w * skewMat w).trace
      = -2 * (w 0 * w 0 + w 1 * w 1 + w 2 * w 2) := by
    rw [skew_mul_skew, Matrix.trace_sub, Matrix.trace_smul, Matrix.trace_one, trace_outer]
    simp only [smul_eq_mul, Fintype.card_fin, Nat.cast_ofNat]
    ring
  have hQtrace := congrArg Matrix.trace hK2
  rw [hKtr, Matrix.trace_add, Matrix.trace_add, Matrix.trace_smul, Matrix.trace_smul,
    Matrix.trace_smul, Matrix.trace_one, trace_sq_eq, hinv2] at hQtrace
  simp only [smul_eq_mul, Fintype.card_fin, Nat.cast_ofNat] at hQtrace
  have hQ : w 0 * w 0 + w 1 * w 1 + w 2 * w 2 = 3 + 2*t - t^2 := by
    linear_combination (-1/2) * hQtrace
  have hP : outerSelf w = (1 + t) • (R * R) + (1 - t^2) • R + (1 + t) • (1 : Mat3) := by
    have h5 := skew_mul_skew w
    rw [hK2, hQ, eq_sub_iff_add_eq] at h5
    rw [← h5]
    module
  have hQnn : (0:ℝ) ≤ 3 + 2*t - t^2 := by
    rw [← hQ]
    nlinarith [mul_self_nonneg (w 0), mul_self_nonneg (w 1), mul_self_nonneg (w 2)]
  have htm1le : (-1:ℝ) ≤ t := by nlinarith
  have ht3 : t ≤ (3:ℝ) := by nlinarith
  have hθpos : 0 < aaAngleOfMat R := lt_of_le_of_lt heps hb
  have hθlt : aaAngleOfMat R < Real.pi := by
    rcases lt_or_eq_of_le (Real.arccos_le_pi ((Matrix.trace R - 1)/2)) with h | h
    · exact h
    · exfalso
      have hcp := congrArg Real.cos h
      rw [Real.cos_pi, Real.cos_arccos (by rw [← htdef]; linarith) (by rw [← htdef]; linarith)] at hcp
      rw [← htdef] at hcp
      apply htm1
      linarith
  have hsin : 0 < Real.sin (aaAngleOfMat R) :=
    Real.sin_pos_of_pos_of_lt_pi hθpos hθlt
  have hθne : aaAngleOfMat R ≠ 0 := ne_of_gt hθpos
  have hsne : Real.sin (aaAngleOfMat R) ≠ 0 := ne_of_gt hsin
  have hcosθ : Real.cos (aaAngleOfMat R) = (t - 1)/2 :=
    Real.cos_arccos (by rw [← htdef]; linarith) (by rw [← htdef]; linarith)
  have hs2 : Real.sin (aaAngleOfMat R) ^ 2 = 1 - ((t - 1)/2)^2 := by
    rw [Real.sin_sq, hcosθ]
  have ht1pos : (0:ℝ) < 1 + t := by
    have hs2pos : 0 < Real.sin (aaAngleOfMat R) ^ 2 := by positivity
    rw [hs2] at hs2pos
    nlinarith
  have hlog : so3Log R = (aaAngleOfMat R * (2 * Real.sin (aaAngleOfMat R))⁻¹) • w := by
    rw [so3Log, aaOfMat]
    dsimp only
    rw [aaAxisOfMat, smul_smul]
  have hvw : vnorm w = 2 * Real.sin (aaAngleOfMat R) := by
    have h6 : (2 * Real.sin (aaAngleOfMat R))^2 = 3 + 2*t - t^2 := by nlinarith [hs2]
    simp only [vnorm]
    rw [hQ, ← h6]
    exact Real.sqrt_sq (by positivity)
  have hvlog : vnorm (so3Log R) = aaAngleOfMat R := by
    rw [hlog, vnorm_smul, hvw, abs_of_pos (by positivity)]
    field_simp
  rw [so3Exp_big eps (so3Log R) (by rw [hvlog]; exact hb), hvlog, hlog,
    skew_smul, outer_smul, smul_smul, smul_smul, hcosθ]
  have hc1 : Real.sin (aaAngleOfMat R) / aaAngleOfMat R
      * (aaAngleOfMat R * (2 * Real.sin (aaAngleOfMat R))⁻¹) = 1/2 := by
    field_simp
    ring
  have hc2 : (1 - (t - 1)/2) / (aaAngleOfMat R)^2
      * (aaAngleOfMat R * (2 * Real.sin (aaAngleOfMat R))⁻¹
          * (aaAngleOfMat R * (2 * Real.sin (aaAngleOfMat R))⁻¹))
      = 1 / (2 * (1 + t)) := by
    have ht3lt : t < 3 := by nlinarith [hs2, mul_pos hsin hsin]
    have h3t : (3:ℝ) - t ≠ 0 := ne_of_gt (by linarith)
    have h1tne : (1:ℝ) + t ≠ 0 := ne_of_gt ht1pos
    field_simp
    linear_combination (-8 * aaAngleOfMat R ^ 2) * hs2
  rw [hc1, hc2, skewMat_skewVec, hP, hT]
  have h1tne : (1:ℝ) + t ≠ 0 := ne_of_gt ht1pos
  have es1 : 1/(2*(1+t)) * (1+t) = 1/2 := by
    field_simp
    ring
  have es2 : 1/(2*(1+t)) * (1-t^2) = (1-t)/2 := by
    field_simp
    ring
  have e1 : (1 / (2 * (1 + t))) • ((1 + t) • (R * R) + (1 - t^2) • R + (1 + t) • (1:Mat3))
      = ((1:ℝ)/2) • (R * R) + ((1 - t)/2) • R + ((1:ℝ)/2) • (1:Mat3) := by
    rw [smul_add, smul_add, smul_smul, smul_smul, smul_smul, es1, es2]
  rw [e1]
  module

/-- C2: exp/log inverse property.  `log(exp ω) = ω` for every `ω` with
`‖ω‖ < π` that lies outside the small-angle Taylor branch (`ε < ‖ω‖`), and for
`ω = 0`; `exp(log R) = R` for every valid rotation matrix `R` (orthonormal,
determinant `+1`) whose decomposition angle is below the `θ = π` ambiguity and
above `ε`, and for `R = I`.  (In the Taylor branch the maps agree only up to
the truncation error, which is what the spec's "approximately" allows.) -/
theorem claim_C2 (eps : ℝ) (w : Vec3) (R : Mat3) (heps : 0 ≤ eps)
    (hw : (eps < vnorm w ∧ vnorm w < Real.pi) ∨ w = 0)
    (ho : Rᵀ * R = 1) (hd : R.det = 1) (htm1 : R.trace ≠ -1)
    (hR : eps < aaAngleOfMat R ∨ R = 1) :
    so3Log (so3Exp eps w) = w ∧ so3Exp eps (so3Log R) = R := by
  constructor
  · rcases hw with ⟨h1, h2⟩ | rfl
    · exact so3Log_so3Exp eps w heps h1 h2
    · rw [so3Exp_zero, so3Log_one]
  · rcases hR with h1 | rfl
    · exact so3Exp_so3Log eps R heps ho hd htm1 h1
    · rw [so3Log_one, so3Exp_zero]

/-- Witness for C2 at the concrete instance `ε = 0`, `ω = 0`, `R = I`. -/
theorem claim_C2_witness :
    (0:ℝ) ≤ 0 ∧ so3Log (so3Exp 0 (0 : Vec3)) = 0
      ∧ so3Exp 0 (so3Log (1 : Mat3)) = 1 := by
  refine ⟨le_refl 0, ?_⟩
  exact claim_C2 0 0 1 (le_refl 0) (Or.inr rfl) (by simp) (by simp)
    (by simp [Matrix.trace_one]; norm_num) (Or.inr rfl)

/-- Hamilton product of quaternions (Eigen `Quaternion::operator*`). -/
def quatMul (p q : Quat) : Quat :=
  ⟨p.w * q.w - p.x * q.x - p.y * q.y - p.z * q.z,
   p.w * q.x + p.x * q.w + p.y * q.z - p.z * q.y,
   p.w * q.y - p.x * q.z + p.y * q.w + p.z * q.x,
   p.w * q.z + p.x * q.y - p.y * q.x + p.z * q.w⟩

/-- Quaternion conjugate (Eigen `Quaternion::conjugate`). -/
def quatConj (q : Quat) : Quat := ⟨q.w, -q.x, -q.y, -q.z⟩

/-- Squared norm of the quaternion coefficient vector. -/
def quatNormSq (q : Quat) : ℝ := q.w ^ 2 + q.x ^ 2 + q.y ^ 2 + q.z ^ 2

/-- Coefficient-wise difference of quaternions. -/
def quatSub (p q : Quat) : Quat := ⟨p.w - q.w, p.x - q.x, p.y - q.y, p.z - q.z⟩

/-- The identity quaternion `(1, 0, 0, 0)`. -/
def quatOne : Quat := ⟨1, 0, 0, 0⟩

/-- Modelled from the spec (§4.5): the Eigen `Quaternion(AngleAxis)`
constructor semantics — the half-angle quaternion formula. -/
def quatOfAA (a : AngleAxis) : Quat :=
  ⟨Real.cos (a.angle / 2), Real.sin (a.angle / 2) * a.axis 0,
   Real.sin (a.angle / 2) * a.axis 1, Real.sin (a.angle / 2) * a.axis 2⟩

/-- Two-argument arctangent, as used by Eigen's quaternion-to-angle-axis
conversion. -/
def atan2 (y x : ℝ) : ℝ :=
  if 0 < x then Real.arctan (y / x)
  else if x < 0 then
    (if 0 ≤ y then Real.arctan (y / x) + Real.pi else Real.arctan (y / x) - Real.pi)
  else (if 0 < y then Real.pi / 2 else if y < 0 then -(Real.pi / 2) else 0)

/-- Modelled from the spec (§4.5): the Eigen `AngleAxis(Quaternion)`
constructor semantics — angle `2·atan2(‖vec‖, w)` and normalized vector part;
for a zero vector part the angle is `0` and the axis the unit x-axis. -/
def aaOfQuat (q : Quat) : AngleAxis :=
  if 0 < Real.sqrt (q.x ^ 2 + q.y ^ 2 + q.z ^ 2) then
    ⟨2 * atan2 (Real.sqrt (q.x ^ 2 + q.y ^ 2 + q.z ^ 2)) q.w,
     ![q.x / Real.sqrt (q.x ^ 2 + q.y ^ 2 + q.z ^ 2),
       q.y / Real.sqrt (q.x ^ 2 + q.y ^ 2 + q.z ^ 2),
       q.z / Real.sqrt (q.x ^ 2 + q.y ^ 2 + q.z ^ 2)]⟩
  else ⟨0, ![1, 0, 0]⟩

/-- Modelled from the spec (§4.4): the Eigen `AngleAxis::toRotationMatrix`
semantics — the rotation by `angle` about the unit `axis` (exact Rodrigues
form). -/
def matOfAA (a : AngleAxis) : Mat3 :=
  Real.cos a.angle • (1 : Mat3) + Real.sin a.angle • skewMat a.axis
    + (1 - Real.cos a.angle) • outerSelf a.axis

/-- Modelled from the spec (§4.4): the Eigen `Quaternion::toRotationMatrix`
semantics — the standard rotation matrix of a unit quaternion. -/
def matOfQuat (q : Quat) : Mat3 :=
  !![1 - 2 * (q.y ^ 2 + q.z ^ 2), 2 * (q.x * q.y - q.z * q.w), 2 * (q.x * q.z + q.y * q.w);
     2 * (q.x * q.y + q.z * q.w), 1 - 2 * (q.x ^ 2 + q.z ^ 2), 2 * (q.y * q.z - q.x * q.w);
     2 * (q.x * q.z - q.y * q.w), 2 * (q.y * q.z + q.x * q.w), 1 - 2 * (q.x ^ 2 + q.y ^ 2)]

/-- Modelled from the spec (§4.4): the canonical-to-quaternion conversion (the
Eigen `Quaternion(Matrix)` constructor is not part of the repository sources),
via the angle/axis decomposition and the half-angle formula. -/
def quatOfMat (R : Mat3) : Quat := quatOfAA (aaOfMat R)

/-- The representation marker types of `SO3Operations.hpp:45-48`
(`RotationMatrixRep`, `AxisAngleRep`, `QuaternionRep`, `RotationVectorRep`);
`DefaultSO3CanonicalRep = RotationMatrixRep` (`SO3Operations.hpp:50`). -/
inductive Rep
  | RotationMatrixRep
  | AxisAngleRep
  | QuaternionRep
  | RotationVectorRep
deriving DecidableEq

/-- The raw storage type of each representation
(the `traits<SO3<S, Rep>>::RepData` table, `SO3Operations.hpp:63-100`). -/
@[reducible] def RepData : Rep → Type
  | .RotationMatrixRep => Mat3
  | .AxisAngleRep => AngleAxis
  | .QuaternionRep => Quat
  | .RotationVectorRep => Vec3

/-- The `IsCoordinates` flag of the traits table (`SO3Operations.hpp:63-100`):
`true` exactly for the rotation-vector representation. -/
def IsCoordinates : Rep → Bool
  | .RotationVectorRep => true
  | _ => false

/-- Embedding of `rep_convert_to_canonical_impl` (`SO3Operations.hpp:217-267`): passthrough
for the canonical representation itself, the Eigen matrix constructor for
angle-axis and quaternion data, and `exp` for rotation-vector data. -/
def rep_convert_to_canonical (eps : ℝ) : (r : Rep) → RepData r → Mat3
  | .RotationMatrixRep, d => d
  | .AxisAngleRep, d => matOfAA d
  | .QuaternionRep, d => matOfQuat d
  | .RotationVectorRep, d => so3Exp eps d

/-- Embedding of `rep_convert_from_canonical_impl` (`SO3Operations.hpp:274-323`):
passthrough for the canonical representation itself, the Eigen rotation
constructors for angle-axis and quaternion, and `log` for rotation-vector. -/
def rep_convert_from_canonical : (r : Rep) → Mat3 → RepData r
  | .RotationMatrixRep, m => m
  | .AxisAngleRep, m => aaOfMat m
  | .QuaternionRep, m => quatOfMat m
  | .RotationVectorRep, m => so3Log m

/-- Embedding of `rep_convert_impl` (`SO3Operations.hpp:347-477`): same-representation
conversion is a passthrough; the registered direct shortcuts are
RotationVector→AxisAngle (`:386-401`), AxisAngle→RotationVector (`:417-427`),
AxisAngle→Quaternion (`:430-445`) and Quaternion→AxisAngle (`:462-477`); every
other pair — including RotationVector→Quaternion, whose direct specialization
is commented out in the source (`:404-414`) — takes the generic two-hop route
through the canonical representation. -/
def rep_convert (eps : ℝ) : (a : Rep) → (b : Rep) → RepData a → RepData b
  | .RotationMatrixRep, .RotationMatrixRep, d => d
  | .AxisAngleRep, .AxisAngleRep, d => d
  | .QuaternionRep, .QuaternionRep, d => d
  | .RotationVectorRep, .RotationVectorRep, d => d
  | .RotationVectorRep, .AxisAngleRep, d =>
      if 0 < vnorm d then ⟨vnorm d, (vnorm d)⁻¹ • d⟩ else ⟨0, ![1, 0, 0]⟩
  | .AxisAngleRep, .RotationVectorRep, d => d.angle • d.axis
  | .AxisAngleRep, .QuaternionRep, d => quatOfAA d
  | .QuaternionRep, .AxisAngleRep, d => aaOfQuat d
  | a, b, d => rep_convert_from_canonical b (rep_convert_to_canonical eps a d)

/-- Embedding of `group_multiplication_impl` (`SO3Operations.hpp:729-776`): when both
representation data are Eigen rotation types (matrix, angle-axis, quaternion)
the product is taken natively in those types (`:749-776`, with the Eigen
mixed-product semantics and the result converted into the left operand's
representation); otherwise — in particular whenever a rotation-vector operand
is involved — the generic version (`:729-744`) converts both operands to the
canonical matrix, multiplies there
(`rep_canonical_multiplication_impl`, `:542-553`), and converts the result
back to the left operand's representation. -/
def groupMulData (eps : ℝ) : (a : Rep) → (b : Rep) → RepData a → RepData b → RepData a
  | .RotationMatrixRep, .RotationMatrixRep, x, y => x * y
  | .RotationMatrixRep, .AxisAngleRep, x, y => x * matOfAA y
  | .RotationMatrixRep, .QuaternionRep, x, y => x * matOfQuat y
  | .AxisAngleRep, .RotationMatrixRep, x, y => aaOfMat (matOfAA x * y)
  | .AxisAngleRep, .AxisAngleRep, x, y => aaOfQuat (quatMul (quatOfAA x) (quatOfAA y))
  | .AxisAngleRep, .QuaternionRep, x, y => aaOfQuat (quatMul (quatOfAA x) y)
  | .QuaternionRep, .RotationMatrixRep, x, y => quatOfMat (matOfQuat x * y)
  | .QuaternionRep, .AxisAngleRep, x, y => quatMul x (quatOfAA y)
  | .QuaternionRep, .QuaternionRep, x, y => quatMul x y
  | a, b, x, y =>
      rep_convert_from_canonical a
        (rep_convert_to_canonical eps a x * rep_convert_to_canonical eps b y)

/-- Eigen `.norm()` of a 3×3 matrix: the Frobenius norm. -/
def frobNorm (m : Mat3) : ℝ :=
  Real.sqrt (m 0 0 ^ 2 + m 0 1 ^ 2 + m 0 2 ^ 2
    + m 1 0 ^ 2 + m 1 1 ^ 2 + m 1 2 ^ 2
    + m 2 0 ^ 2 + m 2 1 ^ 2 + m 2 2 ^ 2)

/-- Eigen `isApprox` for matrices:
`‖a − b‖ ≤ tol · min(‖a‖, ‖b‖)` in Frobenius norm. -/
def matApprox (a b : Mat3) (tol : ℝ) : Prop :=
  frobNorm (a - b) ≤ tol * min (frobNorm a) (frobNorm b)

/-- Eigen `isApprox` for 3-vectors. -/
def vecApprox (a b : Vec3) (tol : ℝ) : Prop :=
  vnorm (a - b) ≤ tol * min (vnorm a) (vnorm b)

/-- Eigen `internal::isApprox` for scalars. -/
def scalarApprox (a b tol : ℝ) : Prop := |a - b| ≤ tol * min |a| |b|

/-- Eigen `isApprox` for quaternions: coefficient-vector closeness. -/
def quatApprox (p q : Quat) (tol : ℝ) : Prop :=
  Real.sqrt (quatNormSq (quatSub p q))
    ≤ tol * min (Real.sqrt (quatNormSq p)) (Real.sqrt (quatNormSq q))

/-- Eigen `isApprox` for angle-axis data: axis closeness and angle
closeness. -/
def aaApprox (a b : AngleAxis) (tol : ℝ) : Prop :=
  vecApprox a.axis b.axis tol ∧ scalarApprox a.angle b.angle tol

/-- The representation-appropriate raw-data comparison that Eigen's
`dataA.isApprox(dataB, tol)` performs for each representation's data type. -/
def dataApprox : (r : Rep) → RepData r → RepData r → ℝ → Prop
  | .RotationMatrixRep, a, b, tol => matApprox a b tol
  | .AxisAngleRep, a, b, tol => aaApprox a b tol
  | .QuaternionRep, a, b, tol => quatApprox a b tol
  | .RotationVectorRep, a, b, tol => vecApprox a b tol

/-- Embedding of `rep_is_approx_impl` (`SO3Operations.hpp:501-535`): for identical
representations the raw data are compared directly (`:523-535`); for
different representations both data are converted to the canonical
representation and compared there (`:501-520`). -/
def rep_is_approx (eps : ℝ) : (a : Rep) → (b : Rep) → RepData a → RepData b → ℝ → Prop
  | .RotationMatrixRep, .RotationMatrixRep, x, y, tol => matApprox x y tol
  | .AxisAngleRep, .AxisAngleRep, x, y, tol => aaApprox x y tol
  | .QuaternionRep, .QuaternionRep, x, y, tol => quatApprox x y tol
  | .RotationVectorRep, .RotationVectorRep, x, y, tol => vecApprox x y tol
  | a, b, x, y, tol =>
      matApprox (rep_convert_to_canonical eps a x) (rep_convert_to_canonical eps b y) tol

/-- The default constructor of `SO3<S, AxisAngleRep>` (`SO3AxisAngle.hpp:79-83`):
the body does nothing and the member initializer `mRepData{RepDataType()}`
(`SO3AxisAngle.hpp:294`) default-constructs the Eigen `AngleAxis`, which
leaves its coefficients uninitialized; the source documents the result as
"By default, the constructed SO(3) is not identity."  The indeterminate
initial contents are modelled as a parameter. -/
def aaDefaultConstruct (indeterminate : AngleAxis) : AngleAxis := indeterminate

/-- The default constructor of `SO3RotationVector` (`SO3TROTATIONVECTOR`
header, lines 1058-1062 and 1264 of the source bundle): the body does nothing
and `mRepData{RepData()}` default-constructs the Eigen 3-vector, which leaves
its coefficients uninitialized; the source documents the result as "By
default, the constructed SO(3) is not identity."  The indeterminate initial
contents are modelled as a parameter. -/
def rvDefaultConstruct (indeterminate : Vec3) : Vec3 := indeterminate

/-- Embedding of `SO3<S, AxisAngleRep>::isIdentity` (`SO3AxisAngle.hpp:273-276`):
`mRepData.angle() == 0`. -/
def aaIsIdentity (a : AngleAxis) : Prop := a.angle = 0

/-- Embedding of `SO3RotationVector::isIdentity` (source bundle line 1243-1246):
`mRepData == RepData::Zero()`. -/
def rvIsIdentity (v : Vec3) : Prop := v = 0

/-- Embedding of `SO3<S, AxisAngleRep>::getInverse` (`SO3AxisAngle.hpp:283-286`):
`SO3(RepDataType(-mRepData.angle(), mRepData.axis()))`. -/
def aaGetInverse (a : AngleAxis) : AngleAxis := ⟨-a.angle, a.axis⟩

/-- Embedding of `SO3RotationVector::getInverse` (source bundle line 1253-1256):
`SO3RotationVector(-mRepData)`. -/
def rvGetInverse (v : Vec3) : Vec3 := -v

/-- Modelled from the spec (§4.6): for the rotation-matrix representation
(`SO3RotationMatrix.hpp` is not part of the sources) inversion is the
transpose. -/
def matGetInverse (R : Mat3) : Mat3 := Rᵀ

/-- Modelled from the spec (§4.6): for the quaternion representation
(`SO3Quaternion.hpp` is not part of the sources) inversion is the
conjugate. -/
def quatGetInverse (q : Quat) : Quat := quatConj q

/-- Embedding of `SO3<S, AxisAngleRep>::operator==` (`SO3AxisAngle.hpp:210-218`): `true`
when both angles are exactly zero, else `mRepData.isApprox(other.mRepData, 0)`
(Eigen angle-axis comparison at tolerance zero). -/
def aaOperatorEq (a b : AngleAxis) : Prop :=
  (a.angle = 0 ∧ b.angle = 0) ∨ aaApprox a b 0

/-- C3 counterexample: a default-constructed axis-angle orientation whose
indeterminate initial data has angle `1` is not the identity (the claim
asserts every default-constructed orientation is the identity). -/
theorem claim_C3_counterexample :
    ¬ aaIsIdentity (aaDefaultConstruct ⟨1, ![1, 0, 0]⟩) := by
  simp [aaIsIdentity, aaDefaultConstruct]

/-- C3 (amended): the default constructors perform no initialization at all —
they leave the representation data at its default-constructed (indeterminate)
Eigen value, documented in the source as "By default, the constructed SO(3) is
not identity"; the result is the identity only when the pre-existing data
happens to encode it. -/
theorem claim_C3 :
    (∀ m : AngleAxis, aaDefaultConstruct m = m)
      ∧ (∀ v : Vec3, rvDefaultConstruct v = v)
      ∧ (∃ m : AngleAxis, ¬ aaIsIdentity (aaDefaultConstruct m))
      ∧ (∃ v : Vec3, ¬ rvIsIdentity (rvDefaultConstruct v)) := by
  refine ⟨fun _ => rfl, fun _ => rfl, ⟨⟨1, ![1, 0, 0]⟩, ?_⟩, ⟨![1, 0, 0], ?_⟩⟩
  · simp [aaIsIdentity, aaDefaultConstruct]
  · intro h
    have h0 := congrFun h 0
    simp [rvDefaultConstruct] at h0

theorem quatOfMat_one : quatOfMat (1 : Mat3) = quatOne := by
  have h1 : aaAngleOfMat (1 : Mat3) = 0 := by
    simp [aaAngleOfMat, Matrix.trace_one]
    norm_num
  simp [quatOfMat, aaOfMat, quatOfAA, h1, quatOne]

/-- C4: the RotationVector→Quaternion conversion has no registered direct
shortcut (the specialization is commented out in the source) and equals the
two-hop canonical route — `to_canonical` (i.e. `exp`) followed by the
canonical-to-quaternion conversion; at the zero vector it yields the identity
quaternion, not zero or garbage. -/
theorem claim_C4 (eps : ℝ) (v : Vec3) :
    rep_convert eps .RotationVectorRep .QuaternionRep v
        = rep_convert_from_canonical .QuaternionRep
            (rep_convert_to_canonical eps .RotationVectorRep v)
      ∧ rep_convert eps .RotationVectorRep .QuaternionRep v = quatOfMat (so3Exp eps v)
      ∧ rep_convert eps .RotationVectorRep .QuaternionRep (0 : Vec3) = quatOne := by
  refine ⟨rfl, rfl, ?_⟩
  show quatOfMat (so3Exp eps 0) = quatOne
  rw [so3Exp_zero, quatOfMat_one]

/-- C5: the direct RotationVector→AxisAngle conversion returns
`(angle = ‖v‖, axis = v/‖v‖)` for every `v` of positive norm — and that axis
is unit-norm — while a vector of norm exactly zero converts to angle `0` with
the default unit x-axis, not an error. -/
theorem claim_C5 (eps : ℝ) (v u : Vec3) (hv : 0 < vnorm v) (hu : vnorm u = 0) :
    rep_convert eps .RotationVectorRep .AxisAngleRep v
        = ⟨vnorm v, (vnorm v)⁻¹ • v⟩
      ∧ vnorm ((vnorm v)⁻¹ • v) = 1
      ∧ rep_convert eps .RotationVectorRep .AxisAngleRep u = ⟨0, ![1, 0, 0]⟩ := by
  refine ⟨?_, ?_, ?_⟩
  · show (if 0 < vnorm v then (⟨vnorm v, (vnorm v)⁻¹ • v⟩ : AngleAxis)
      else ⟨0, ![1, 0, 0]⟩) = _
    rw [if_pos hv]
  · rw [vnorm_smul, abs_of_pos (inv_pos.mpr hv), inv_mul_cancel₀ (ne_of_gt hv)]
  · show (if 0 < vnorm u then (⟨vnorm u, (vnorm u)⁻¹ • u⟩ : AngleAxis)
      else ⟨0, ![1, 0, 0]⟩) = _
    rw [hu, if_neg (lt_irrefl 0)]

/-- Witness for C5 at `v = (1,0,0)`, `u = 0`, `ε = 0`. -/
theorem claim_C5_witness :
    0 < vnorm ![(1:ℝ), 0, 0] ∧ vnorm (0 : Vec3) = 0
      ∧ rep_convert 0 .RotationVectorRep .AxisAngleRep ![(1:ℝ), 0, 0]
          = ⟨vnorm ![(1:ℝ), 0, 0], (vnorm ![(1:ℝ), 0, 0])⁻¹ • ![(1:ℝ), 0, 0]⟩ := by
  have h1 : vnorm ![(1:ℝ), 0, 0] = 1 := by
    simp [vnorm]
  refine ⟨by rw [h1]; norm_num, vnorm_zero, ?_⟩
  exact (claim_C5 0 ![(1:ℝ), 0, 0] 0 (by rw [h1]; norm_num) vnorm_zero).1

/-- C6: the direct AxisAngle→RotationVector conversion is `axis · angle` for
every input; in particular `AxisAngle(axis = x, angle = 0)` converts to the
zero vector, and converting that zero vector back to AxisAngle yields angle
`0` with the documented default axis, not an error. -/
theorem claim_C6 (eps : ℝ) (a : AngleAxis) :
    rep_convert eps .AxisAngleRep .RotationVectorRep a = a.angle • a.axis
      ∧ rep_convert eps .AxisAngleRep .RotationVectorRep ⟨0, ![1, 0, 0]⟩ = (0 : Vec3)
      ∧ rep_convert eps .RotationVectorRep .AxisAngleRep
          (rep_convert eps .AxisAngleRep .RotationVectorRep ⟨0, ![1, 0, 0]⟩)
        = ⟨0, ![1, 0, 0]⟩ := by
  have h0 : rep_convert eps .AxisAngleRep .RotationVectorRep ⟨0, ![1, 0, 0]⟩ = (0 : Vec3) := by
    show (0:ℝ) • ![(1:ℝ), 0, 0] = 0
    exact zero_smul ℝ _
  refine ⟨rfl, h0, ?_⟩
  rw [h0]
  show (if 0 < vnorm 0 then (⟨vnorm 0, (vnorm 0)⁻¹ • (0:Vec3)⟩ : AngleAxis)
      else ⟨0, ![1, 0, 0]⟩) = _
  rw [vnorm_zero, if_neg (lt_irrefl 0)]

/-- C7: multiplying two RotationVector orientations takes the slow canonical
path — both operands are converted to the canonical rotation matrix (via
`exp`), multiplied there, and converted back (via `log`) — so the result's
raw data is `log(exp(a) · exp(b))`. -/
theorem claim_C7 (eps : ℝ) (a b : Vec3) :
    groupMulData eps .RotationVectorRep .RotationVectorRep a b
        = so3Log (so3Exp eps a * so3Exp eps b)
      ∧ groupMulData eps .RotationVectorRep .RotationVectorRep a b
        = rep_convert_from_canonical .RotationVectorRep
            (rep_convert_to_canonical eps .RotationVectorRep a
              * rep_convert_to_canonical eps .RotationVectorRep b) :=
  ⟨rfl, rfl⟩

theorem quatMul_conj (q : Quat) :
    quatMul q (quatConj q) = ⟨quatNormSq q, 0, 0, 0⟩ := by
  rw [quatMul, quatConj, quatNormSq, Quat.mk.injEq]
  refine ⟨by ring, by ring, by ring, by ring⟩

theorem aaOfQuat_one : aaOfQuat quatOne = ⟨0, ![1, 0, 0]⟩ := by
  simp [aaOfQuat, quatOne]

/-- For a unit axis, the half-angle quaternions of `(θ, u)` and `(−θ, u)` are
inverse to each other. -/
theorem quatOfAA_mul_inverse (a : AngleAxis) (ha : vnorm a.axis = 1) :
    quatMul (quatOfAA a) (quatOfAA (aaGetInverse a)) = quatOne := by
  have hsum : a.axis 0 * a.axis 0 + a.axis 1 * a.axis 1 + a.axis 2 * a.axis 2 = 1 := by
    rw [← sq_vnorm, ha]
    norm_num
  rw [quatOfAA, quatOfAA, aaGetInverse, quatMul, quatOne, Quat.mk.injEq]
  simp only [neg_div, Real.cos_neg, Real.sin_neg]
  refine ⟨?_, by ring, by ring, by ring⟩
  linear_combination Real.sin (a.angle / 2) ^ 2 * hsum
    + Real.sin_sq_add_cos_sq (a.angle / 2)

/-- C8: inversion is the representation-specific closed form — axis-angle
keeps the axis and negates the angle, rotation-vector negates the vector,
matrix transposes, quaternion conjugates — and in every representation the
product of an orientation with its `getInverse` is the identity encoding
(for the rotation-vector representation: outside the Taylor branch of `exp`
or at zero, where the canonical round-trip is exact). -/
theorem claim_C8 (eps : ℝ) (R : Mat3) (q : Quat) (a : AngleAxis) (v : Vec3)
    (heps : 0 ≤ eps) (hR : Rᵀ * R = 1) (hq : quatNormSq q = 1)
    (ha : vnorm a.axis = 1) (hv : eps < vnorm v ∨ v = 0) :
    aaGetInverse a = ⟨-a.angle, a.axis⟩
      ∧ rvGetInverse v = -v
      ∧ matGetInverse R = Rᵀ
      ∧ quatGetInverse q = quatConj q
      ∧ groupMulData eps .RotationMatrixRep .RotationMatrixRep R (matGetInverse R) = 1
      ∧ groupMulData eps .QuaternionRep .QuaternionRep q (quatGetInverse q) = quatOne
      ∧ aaIsIdentity (groupMulData eps .AxisAngleRep .AxisAngleRep a (aaGetInverse a))
      ∧ rvIsIdentity
          (groupMulData eps .RotationVectorRep .RotationVectorRep v (rvGetInverse v)) := by
  refine ⟨rfl, rfl, rfl, rfl, ?_, ?_, ?_, ?_⟩
  · show R * Rᵀ = 1
    exact Matrix.mul_eq_one_comm.mp hR
  · show quatMul q (quatConj q) = quatOne
    rw [quatMul_conj, hq]
    rfl
  · show aaIsIdentity (aaOfQuat (quatMul (quatOfAA a) (quatOfAA (aaGetInverse a))))
    rw [quatOfAA_mul_inverse a ha, aaOfQuat_one]
    rfl
  · show rvIsIdentity (so3Log (so3Exp eps v * so3Exp eps (-v)))
    rw [so3Exp_neg, so3Exp_mul_transpose eps v heps hv, so3Log_one]
    rfl

/-- Witness for C8 at `ε = 0`, `R = I`, `q = 1`, `a = (angle 0, x-axis)`,
`v = 0`. -/
theorem claim_C8_witness :
    ((0:ℝ) ≤ 0 ∧ (1:Mat3)ᵀ * 1 = 1 ∧ quatNormSq quatOne = 1
        ∧ vnorm ![(1:ℝ), 0, 0] = 1)
      ∧ groupMulData 0 .RotationMatrixRep .RotationMatrixRep 1 (matGetInverse 1) = 1
      ∧ rvIsIdentity
          (groupMulData 0 .RotationVectorRep .RotationVectorRep 0 (rvGetInverse 0)) := by
  have h1 : vnorm ![(1:ℝ), 0, 0] = 1 := by simp [vnorm]
  have hcore := claim_C8 0 1 quatOne ⟨0, ![(1:ℝ), 0, 0]⟩ 0 (le_refl 0)
    (by simp) (by norm_num [quatNormSq, quatOne]) h1 (Or.inr rfl)
  exact ⟨⟨le_refl 0, by simp, by norm_num [quatNormSq, quatOne], h1⟩,
    hcore.2.2.2.2.1, hcore.2.2.2.2.2.2.2⟩

/-- C9: `isApprox` compares raw representation data directly within `tol` when
both operands share a representation, and otherwise converts both to the
canonical representation and compares there within `tol`. -/
theorem claim_C9 (eps tol : ℝ) :
    (∀ (r : Rep) (x y : RepData r),
        rep_is_approx eps r r x y tol ↔ dataApprox r x y tol)
      ∧ (∀ (a b : Rep), a ≠ b → ∀ (x : RepData a) (y : RepData b),
          rep_is_approx eps a b x y tol
            ↔ matApprox (rep_convert_to_canonical eps a x)
                (rep_convert_to_canonical eps b y) tol) := by
  constructor
  · intro r x y
    cases r <;> exact Iff.rfl
  · intro a b hab x y
    cases a <;> cases b <;> first
      | exact absurd rfl hab
      | exact Iff.rfl

/-- Witness for C9: a same-representation instance and a
different-representation instance, with the inequality discharged. -/
theorem claim_C9_witness :
    Rep.RotationMatrixRep ≠ Rep.RotationVectorRep
      ∧ (rep_is_approx 0 .RotationMatrixRep .RotationVectorRep 1 0 0
          ↔ matApprox (rep_convert_to_canonical 0 .RotationMatrixRep 1)
              (rep_convert_to_canonical 0 .RotationVectorRep 0) 0)
      ∧ (rep_is_approx 0 .RotationVectorRep .RotationVectorRep 0 0 0
          ↔ dataApprox .RotationVectorRep 0 0 0) :=
  ⟨by decide, (claim_C9 0 0).2 _ _ (by decide) 1 0,
    (claim_C9 0 0).1 .RotationVectorRep 0 0⟩

/-- Eigen `isApprox` of angle-axis data at tolerance `0` is exact equality of
axis and angle. -/
theorem aaApprox_zero_iff (a b : AngleAxis) :
    aaApprox a b 0 ↔ a.axis = b.axis ∧ a.angle = b.angle := by
  rw [aaApprox, vecApprox, scalarApprox]
  constructor
  · rintro ⟨h1, h2⟩
    rw [zero_mul] at h1 h2
    constructor
    · exact sub_eq_zero.mp ((vnorm_eq_zero_iff _).mp (le_antisymm h1 (vnorm_nonneg _)))
    · exact sub_eq_zero.mp (abs_eq_zero.mp (le_antisymm h2 (abs_nonneg _)))
  · rintro ⟨h1, h2⟩
    rw [h1, h2, sub_self, sub_self, vnorm_zero]
    simp

/-- C10: the axis-angle exact-equality operator returns true whenever both
angles are exactly `0`, regardless of the axes; otherwise it compares the raw
`(angle, axis)` data exactly (tolerance `0`), so the two encodings
`(angle 1, x-axis)` and `(angle −1, −x-axis)` of the same rotation compare
unequal. -/
theorem claim_C10 (a b : AngleAxis) :
    (a.angle = 0 → b.angle = 0 → aaOperatorEq a b)
      ∧ (¬(a.angle = 0 ∧ b.angle = 0) →
          (aaOperatorEq a b ↔ a.axis = b.axis ∧ a.angle = b.angle))
      ∧ ¬ aaOperatorEq ⟨1, ![1, 0, 0]⟩ ⟨-1, ![-1, 0, 0]⟩
      ∧ matOfAA ⟨1, ![1, 0, 0]⟩ = matOfAA ⟨-1, ![-1, 0, 0]⟩ := by
  refine ⟨fun h1 h2 => Or.inl ⟨h1, h2⟩, ?_, ?_, ?_⟩
  · intro h
    rw [aaOperatorEq]
    constructor
    · rintro (h12 | h3)
      · exact absurd h12 h
      · exact (aaApprox_zero_iff a b).mp h3
    · intro h3
      exact Or.inr ((aaApprox_zero_iff a b).mpr h3)
  · rintro (⟨h1, _⟩ | h3)
    · norm_num at h1
    · have hang := ((aaApprox_zero_iff _ _).mp h3).2
      norm_num at hang
  · have hv : ![(-1:ℝ), 0, 0] = -![(1:ℝ), 0, 0] := by
      funext i
      fin_cases i <;> simp
    rw [matOfAA, matOfAA]
    dsimp only
    rw [hv, skew_neg, outer_neg, Real.cos_neg, Real.sin_neg, neg_smul, smul_neg, neg_neg]

/-- Witness for C10: both-angles-zero instances compare equal regardless of
axis, and a nonzero-angle instance falls through to the exact comparison. -/
theorem claim_C10_witness :
    aaOperatorEq ⟨0, ![(1:ℝ), 0, 0]⟩ ⟨0, ![(0:ℝ), 1, 0]⟩
      ∧ (aaOperatorEq ⟨1, ![(1:ℝ), 0, 0]⟩ ⟨1, ![(1:ℝ), 0, 0]⟩
          ↔ (![(1:ℝ), 0, 0] = ![(1:ℝ), 0, 0] ∧ (1:ℝ) = 1)) := by
  refine ⟨(claim_C10 ⟨0, ![(1:ℝ), 0, 0]⟩ ⟨0, ![(0:ℝ), 1, 0]⟩).1 rfl rfl, ?_⟩
  exact (claim_C10 ⟨1, ![(1:ℝ), 0, 0]⟩ ⟨1, ![(1:ℝ), 0, 0]⟩).2.1 (by norm_num)

end

end DartMath
